import Mathlib

/-!
# Traffic light simulation: `MessageQueue` and `TrafficLight`

A shallow embedding of `src/TrafficLight.cpp`.

* `MessageQueue<T>` is its `_queue` (a `std::deque<T>`), held as a list whose
  head is the front of the deque and whose last element is the back.  `send`
  and `receive` each run under `_mutex`, so each is one atomic step.
* A `receive` whose wait predicate `!_queue.empty()` is false stays suspended;
  it is modelled by the result `none`, with the store untouched.
* `TrafficLight` holds `_currentPhase` and `_messages`.  The header
  `TrafficLight.h` with the class declarations is not among the sources; the
  members are taken as the code uses them.
* The infinite loops (`waitForGreen`, `cycleThroughPhases`) are driven by fuel
  or by an explicit list of events; clock readings and random-engine outputs
  are inputs of the loop body.
-/

namespace TrafficSim

/-! ## Data model -/

/-- Modelled from the spec: the enumeration `TrafficLightPhase`, declared in
`TrafficLight.h`, which is not among the sources.  The spec gives a phase the
two values red and green; they are the two the code names. -/
inductive TrafficLightPhase where
  | red
  | green
  deriving DecidableEq, Repr

/-- Modelled from the spec: the members of `MessageQueue<T>`, declared in
`TrafficLight.h`, which is not among the sources.  The code reaches the store
`_queue` through `empty`, `back`, `pop_back` and `emplace_back`, and the spec
puts no bound on it: a sequence, held front first, back last.  `_mutex` and
`_cond` carry no data. -/
structure MessageQueue (T : Type) where
  _queue : List T
  deriving DecidableEq, Repr

/-- The method `MessageQueue<T>::send`: `_queue.emplace_back(msg)`.  The
notification wakes a thread suspended in `receive`; it changes no data. -/
def MessageQueue.send {T : Type} (q : MessageQueue T) (msg : T) : MessageQueue T :=
  ⟨q._queue ++ [msg]⟩

/-- The method `MessageQueue<T>::receive`.  With an empty store the wait
predicate is false and the caller stays suspended (`none`).  Otherwise the
message is `_queue.back()` and `pop_back` removes it. -/
def MessageQueue.receive {T : Type} (q : MessageQueue T) : Option (T × MessageQueue T) :=
  match q._queue.getLast? with
  | none => none
  | some msg => some (msg, ⟨q._queue.dropLast⟩)

/-- A queue as constructed: the store is empty. -/
def MessageQueue.empty {T : Type} : MessageQueue T := ⟨[]⟩

/-- Sends the values of `ps` one after the other, `ps.head` first. -/
def sendAll {T : Type} (q : MessageQueue T) (ps : List T) : MessageQueue T :=
  ps.foldl MessageQueue.send q

/-- Calls `receive` `n` times in a row with no `send` in between and collects
the returned values in call order.  A call that finds the store empty never
completes, and neither does the sequence (`none`). -/
def receiveN {T : Type} : Nat → MessageQueue T → Option (List T × MessageQueue T)
  | 0, q => some ([], q)
  | n + 1, q =>
    match q.receive with
    | none => none
    | some (msg, q1) =>
      match receiveN n q1 with
      | none => none
      | some (rest, q2) => some (msg :: rest, q2)

/-! ## The traffic light -/

/-- Modelled from the spec: the members of `TrafficLight`, declared in
`TrafficLight.h`, which is not among the sources: the phase field
`_currentPhase` and the message queue `_messages`, as the code uses them. -/
structure TrafficLight where
  _currentPhase : TrafficLightPhase
  _messages : MessageQueue TrafficLightPhase
  deriving DecidableEq, Repr

/-- The constructor `TrafficLight::TrafficLight()`: the phase is red and the
message queue is default-constructed, hence empty. -/
def TrafficLight.new : TrafficLight :=
  ⟨TrafficLightPhase.red, MessageQueue.empty⟩

/-- The method `TrafficLight::getCurrentPhase`. -/
def TrafficLight.getCurrentPhase (l : TrafficLight) : TrafficLightPhase :=
  l._currentPhase

/-- How a call of `waitForGreen` stands.  `received` lists the values its
calls of `receive` have returned so far, oldest first.
* `returned`: the call reached `return`;
* `suspended`: the call sits in `receive` on an empty store and stays there
  until a `send` happens;
* `looping`: the call is between two iterations (the fuel ran out). -/
inductive WaitOutcome where
  | returned (light : TrafficLight) (received : List TrafficLightPhase)
  | suspended (light : TrafficLight) (received : List TrafficLightPhase)
  | looping (light : TrafficLight) (received : List TrafficLightPhase)
  deriving DecidableEq, Repr

/-- The loop of `TrafficLight::waitForGreen`, at most `fuel` iterations of it,
with no `send` while it runs.  Each iteration calls `_messages.receive()` and
returns when the phase received is green.  `received` is what the call has
received before; a suspended call that is woken resumes with this function on
the new queue content. -/
def waitForGreenLoop : Nat → TrafficLight → List TrafficLightPhase → WaitOutcome
  | 0, l, received => WaitOutcome.looping l received
  | fuel + 1, l, received =>
    match l._messages.receive with
    | none => WaitOutcome.suspended l received
    | some (phase, q) =>
      if phase = TrafficLightPhase.green then
        WaitOutcome.returned ⟨l._currentPhase, q⟩ (received ++ [phase])
      else
        waitForGreenLoop fuel ⟨l._currentPhase, q⟩ (received ++ [phase])

/-- The method `TrafficLight::waitForGreen`, run for at most `fuel` iterations. -/
def TrafficLight.waitForGreen (fuel : Nat) (l : TrafficLight) : WaitOutcome :=
  waitForGreenLoop fuel l []

/-- The toggle of `cycleThroughPhases`:
`(_currentPhase == red) ? green : red`. -/
def newPhase (l : TrafficLight) : TrafficLightPhase :=
  if l._currentPhase = TrafficLightPhase.red then TrafficLightPhase.green
  else TrafficLightPhase.red

/-- A phase transition of `cycleThroughPhases` as the light sees it: the toggled
phase is stored in `_currentPhase` and then sent to `_messages`. -/
def phaseTransition (l : TrafficLight) : TrafficLight :=
  ⟨newPhase l, l._messages.send (newPhase l)⟩

/-- The call `distr(rng)` of `std::uniform_int_distribution<> distr(4, 6)`.  The
distribution is library code; `r` stands for what the random engine supplies,
and the result is the value of the closed range from 4 to 6 it selects. -/
def distr (r : Nat) : Int :=
  4 + ((r % 3 : Nat) : Int)

/-- The expression
`duration_cast<seconds>(system_clock::now() - lastUpdate).count()`: clock
readings are tick counts, `hz` ticks make a second, and the cast truncates
towards zero. -/
def timeSinceLastUpdate (hz : Nat) (now lastUpdate : Int) : Int :=
  Int.tdiv (now - lastUpdate) (hz : Int)

/-- The thread running `cycleThroughPhases` together with the light it works
on: the locals `cycleDuration` and `lastUpdate`, and two history lists that no
code reads: `written` holds every value stored into `_currentPhase` by the loop
and `sent` every value passed to `_messages.send`, oldest first. -/
structure CycleState where
  light : TrafficLight
  cycleDuration : Int
  lastUpdate : Int
  written : List TrafficLightPhase
  sent : List TrafficLightPhase
  deriving DecidableEq, Repr

/-- The part of `cycleThroughPhases` before the loop: the first cycle duration
is drawn (`r0`) and the stop watch is set to the clock reading `t0`. -/
def cycleStart (l : TrafficLight) (r0 : Nat) (t0 : Int) : CycleState :=
  ⟨l, distr r0, t0, [], []⟩

/-- One iteration of the `while (true)` loop of `cycleThroughPhases`.  `now1` is
the clock reading of the elapsed-time computation, `now2` the one that resets
the stop watch, and `r` feeds the draw of the next cycle duration. -/
def loopIteration (hz : Nat) (s : CycleState) (now1 now2 : Int) (r : Nat) : CycleState :=
  if timeSinceLastUpdate hz now1 s.lastUpdate ≥ s.cycleDuration then
    ⟨phaseTransition s.light, distr r, now2,
      s.written ++ [newPhase s.light], s.sent ++ [newPhase s.light]⟩
  else s

/-- What can happen to a running light: the scheduler thread performs one loop
iteration, or some other thread attempts a `receive` on the message queue (it
removes the newest entry, or finds the store empty and changes nothing). -/
inductive Event where
  | iteration (now1 now2 : Int) (r : Nat)
  | receive
  deriving DecidableEq, Repr

/-- One event applied to the scheduler thread and its light. -/
def stepEvent (hz : Nat) (s : CycleState) : Event → CycleState
  | Event.iteration now1 now2 r => loopIteration hz s now1 now2 r
  | Event.receive =>
    match s.light._messages.receive with
    | none => s
    | some (_, q) =>
      ⟨⟨s.light._currentPhase, q⟩, s.cycleDuration, s.lastUpdate, s.written, s.sent⟩

/-- A run of `cycleThroughPhases` on the light `l`: the start, then the events
of `es` in order. -/
def cycleThroughPhases (hz : Nat) (l : TrafficLight) (r0 : Nat) (t0 : Int)
    (es : List Event) : CycleState :=
  es.foldl (stepEvent hz) (cycleStart l r0 t0)

/-- The method `TrafficLight::simulate`: it starts one thread that runs
`cycleThroughPhases` on this light.  The result is that thread and the light
after the events `es`. -/
def TrafficLight.simulate (hz : Nat) (l : TrafficLight) (r0 : Nat) (t0 : Int)
    (es : List Event) : CycleState :=
  cycleThroughPhases hz l r0 t0 es

/-- An operation on a message queue, as one thread or another performs it. -/
inductive QueueOp (T : Type) where
  | send (msg : T)
  | receive

/-- A queue together with the history of an interleaving: the values sent so
far and the values returned by completed receives, oldest first. -/
structure QueueRun (T : Type) where
  queue : MessageQueue T
  sentValues : List T
  returnedValues : List T

/-- One operation of an interleaving.  A `receive` on an empty store does not
complete: nothing is returned and the store stays as it is. -/
def QueueRun.step {T : Type} (s : QueueRun T) : QueueOp T → QueueRun T
  | QueueOp.send msg => ⟨s.queue.send msg, s.sentValues ++ [msg], s.returnedValues⟩
  | QueueOp.receive =>
    match s.queue.receive with
    | none => s
    | some (msg, q) => ⟨q, s.sentValues, s.returnedValues ++ [msg]⟩

/-- An interleaving of operations on a queue that starts empty. -/
def runOps {T : Type} (ops : List (QueueOp T)) : QueueRun T :=
  ops.foldl QueueRun.step ⟨MessageQueue.empty, [], []⟩

/-- The light states reached from the constructed light by scheduler phase
transitions and by calls of `waitForGreen` that each ran from their first
`receive` to `return` with no phase transition in between (`waited` takes a
whole call as one step).  The code also reaches states in which a transition
fell between two receives of one call; those are not in this set. -/
inductive ReachableByWholeCalls : TrafficLight → Prop where
  | constructed : ReachableByWholeCalls TrafficLight.new
  | transition (l : TrafficLight) :
      ReachableByWholeCalls l → ReachableByWholeCalls (phaseTransition l)
  | waited (l l1 : TrafficLight) (fuel : Nat) (received : List TrafficLightPhase) :
      ReachableByWholeCalls l → l.waitForGreen fuel = WaitOutcome.returned l1 received →
      ReachableByWholeCalls l1


/-! ## Invariants -/

/-- The history kept by a run: what was sent is what was written, the written
values alternate, and the newest of them is the phase of the light. -/
def HistoryOk (s : CycleState) : Prop :=
  s.sent = s.written ∧ List.Chain' (fun a b => a ≠ b) s.written ∧
    ∀ x, s.written.getLast? = some x → x = s.light._currentPhase

/-- What holds of every light reached by phase transitions and whole calls of
`waitForGreen`: a green entry of the store never lies directly on another
green, and a green on top means the phase is green. -/
def LightOk (l : TrafficLight) : Prop :=
  (∀ older newer, l._messages._queue = older ++ TrafficLightPhase.green :: newer →
    older.getLast? ≠ some TrafficLightPhase.green) ∧
  (l._messages._queue.getLast? = some TrafficLightPhase.green →
    l._currentPhase = TrafficLightPhase.green)

/-! ## Lemmas on the queue -/

theorem sendAll_queue {T : Type} (q : MessageQueue T) (ps : List T) :
    (sendAll q ps)._queue = q._queue ++ ps := by
  induction ps generalizing q with
  | nil => simp [sendAll]
  | cons p ps ih =>
    have h := ih (q.send p)
    simp only [sendAll, List.foldl_cons] at h ⊢
    rw [h]
    simp [MessageQueue.send]

theorem receive_snoc {T : Type} (xs : List T) (x : T) :
    (MessageQueue.mk (xs ++ [x])).receive = some (x, ⟨xs⟩) := by
  simp [MessageQueue.receive]

theorem receive_nil {T : Type} : (MessageQueue.mk ([] : List T)).receive = none := by
  simp [MessageQueue.receive]

theorem receiveN_append_reverse {T : Type} (base ps : List T) :
    receiveN ps.length (MessageQueue.mk (base ++ ps.reverse)) = some (ps, ⟨base⟩) := by
  induction ps with
  | nil => simp [receiveN]
  | cons p ps ih =>
    have h : base ++ (p :: ps).reverse = (base ++ ps.reverse) ++ [p] := by simp
    simp only [List.length_cons, receiveN, h, receive_snoc, ih]

/-! ## Lemmas on `waitForGreen` -/

theorem phase_eq_red_of_ne_green (x : TrafficLightPhase) (h : x ≠ TrafficLightPhase.green) :
    x = TrafficLightPhase.red := by
  cases x
  · rfl
  · exact absurd rfl h

/-- Reds on top of a green: the loop takes them off one by one, then takes the
green and returns. -/
theorem waitForGreenLoop_reds_green (p : TrafficLightPhase) (older reds : List TrafficLightPhase)
    (hreds : ∀ x ∈ reds, x = TrafficLightPhase.red) (fuel : Nat) (hfuel : reds.length < fuel)
    (received : List TrafficLightPhase) :
    waitForGreenLoop fuel ⟨p, ⟨older ++ TrafficLightPhase.green :: reds⟩⟩ received =
      WaitOutcome.returned ⟨p, ⟨older⟩⟩
        (received ++ (reds.reverse ++ [TrafficLightPhase.green])) := by
  induction reds using List.reverseRecOn generalizing fuel received with
  | nil =>
    obtain ⟨f, rfl⟩ : ∃ f, fuel = f + 1 := ⟨fuel - 1, by simp at hfuel; omega⟩
    have h := receive_snoc older TrafficLightPhase.green
    simp only [List.append_assoc, List.singleton_append] at h
    simp [waitForGreenLoop, h]
  | append_singleton reds x ih =>
    obtain ⟨f, rfl⟩ : ∃ f, fuel = f + 1 := ⟨fuel - 1, by omega⟩
    have hx : x = TrafficLightPhase.red := hreds x (by simp)
    subst hx
    have h := receive_snoc (older ++ TrafficLightPhase.green :: reds) TrafficLightPhase.red
    simp only [List.append_assoc, List.cons_append] at h
    have hlen : reds.length < f := by simp at hfuel; omega
    have ih1 := ih (fun y hy => hreds y (by simp [hy])) f hlen
      (received ++ [TrafficLightPhase.red])
    simp only [waitForGreenLoop, h]
    simp [ih1]

/-- A store without a green entry: the loop never reaches `return`; it takes
the entries off from the newest and, the store empty, sits in `receive`. -/
theorem waitForGreenLoop_no_green (p : TrafficLightPhase) (q : List TrafficLightPhase)
    (hq : TrafficLightPhase.green ∉ q) (fuel : Nat) (received : List TrafficLightPhase) :
    (∀ l1 rec1, waitForGreenLoop fuel ⟨p, ⟨q⟩⟩ received ≠ WaitOutcome.returned l1 rec1) ∧
    (q.length < fuel →
      waitForGreenLoop fuel ⟨p, ⟨q⟩⟩ received =
        WaitOutcome.suspended ⟨p, ⟨[]⟩⟩ (received ++ q.reverse)) := by
  induction q using List.reverseRecOn generalizing fuel received with
  | nil =>
    cases fuel with
    | zero => simp [waitForGreenLoop]
    | succ f => simp [waitForGreenLoop, receive_nil]
  | append_singleton q x ih =>
    have hx : x = TrafficLightPhase.red :=
      phase_eq_red_of_ne_green x (fun hx => hq (by simp [hx]))
    subst hx
    have hq1 : TrafficLightPhase.green ∉ q := fun hm => hq (by simp [hm])
    cases fuel with
    | zero => simp [waitForGreenLoop]
    | succ f =>
      have ih1 := ih hq1 f (received ++ [TrafficLightPhase.red])
      simp only [waitForGreenLoop, receive_snoc]
      refine ⟨by simpa using ih1.1, fun hlen => ?_⟩
      have := ih1.2 (by simp at hlen; omega)
      simpa using this

/-- A store with a green entry splits at its newest green. -/
theorem split_at_newest_green (q : List TrafficLightPhase)
    (h : TrafficLightPhase.green ∈ q) :
    ∃ older reds, q = older ++ TrafficLightPhase.green :: reds ∧
      ∀ x ∈ reds, x = TrafficLightPhase.red := by
  induction q using List.reverseRecOn with
  | nil => simp at h
  | append_singleton q x ih =>
    cases x with
    | green => exact ⟨q, [], rfl, by simp⟩
    | red =>
      have hq : TrafficLightPhase.green ∈ q := by simpa using h
      obtain ⟨older, reds, rfl, hr⟩ := ih hq
      refine ⟨older, reds ++ [TrafficLightPhase.red], by simp, ?_⟩
      intro x hx
      rcases List.mem_append.mp hx with hx | hx
      · exact hr x hx
      · simpa using hx

/-! ## Lemmas on runs -/

theorem foldl_invariant {σ ε : Type} (P : σ → Prop) (f : σ → ε → σ)
    (hstep : ∀ s e, P s → P (f s e)) (es : List ε) (s : σ) (hs : P s) :
    P (es.foldl f s) := by
  induction es generalizing s with
  | nil => exact hs
  | cons e es ih => exact ih (f s e) (hstep s e hs)

theorem receive_eq_some {T : Type} (q q1 : MessageQueue T) (msg : T)
    (h : q.receive = some (msg, q1)) : q._queue = q1._queue ++ [msg] := by
  obtain ⟨xs⟩ := q
  induction xs using List.reverseRecOn with
  | nil => simp [MessageQueue.receive] at h
  | append_singleton xs x _ =>
    rw [receive_snoc] at h
    simp only [Option.some.injEq, Prod.mk.injEq] at h
    obtain ⟨rfl, rfl⟩ := h
    rfl

theorem receive_eq_none {T : Type} (q : MessageQueue T) (h : q.receive = none) :
    q._queue = [] := by
  obtain ⟨xs⟩ := q
  induction xs using List.reverseRecOn with
  | nil => rfl
  | append_singleton xs x _ => simp [receive_snoc] at h

theorem distr_bounds (r : Nat) : 4 ≤ distr r ∧ distr r ≤ 6 := by
  unfold distr
  omega

theorem newPhase_ne (l : TrafficLight) : newPhase l ≠ l._currentPhase := by
  obtain ⟨p, q⟩ := l
  cases p <;> simp [newPhase]

theorem chain_ne_index (w : List TrafficLightPhase) (h : List.Chain' (fun a b => a ≠ b) w)
    (i : Nat) (x y : TrafficLightPhase) (hx : w.get? i = some x) (hy : w.get? (i + 1) = some y) :
    x ≠ y := by
  induction w generalizing i with
  | nil => simp at hx
  | cons a w ih =>
    cases i with
    | zero =>
      cases w with
      | nil => simp at hy
      | cons b w =>
        simp only [List.get?_cons_zero, List.get?_cons_succ, Option.some.injEq] at hx hy
        subst hx hy
        exact (List.chain'_cons.mp h).1
    | succ j =>
      simp only [List.get?_cons_succ] at hx hy
      exact ih (List.Chain'.tail h) j hx hy

theorem historyOk_step (hz : Nat) (s : CycleState) (e : Event) (h : HistoryOk s) :
    HistoryOk (stepEvent hz s e) := by
  obtain ⟨hsent, hchain, hlast⟩ := h
  cases e with
  | receive =>
    simp only [stepEvent]
    cases hr : s.light._messages.receive with
    | none => exact ⟨hsent, hchain, hlast⟩
    | some v => exact ⟨hsent, hchain, hlast⟩
  | iteration now1 now2 r =>
    simp only [stepEvent, loopIteration]
    split
    · refine ⟨by simp [hsent], ?_, ?_⟩
      · refine List.chain'_append.mpr ⟨hchain, by simp, ?_⟩
        intro x hx y hy
        simp only [List.head?_cons, Option.mem_def, Option.some.injEq] at hy
        subst hy
        rw [hlast x hx]
        exact (newPhase_ne s.light).symm
      · intro x hx
        simp only [List.getLast?_concat, Option.some.injEq] at hx
        subst hx
        rfl
    · exact ⟨hsent, hchain, hlast⟩

theorem iterate_phaseTransition (n : Nat) :
    (phaseTransition^[n] TrafficLight.new) =
      ⟨if n % 2 = 1 then TrafficLightPhase.green else TrafficLightPhase.red,
       ⟨(List.range n).map
          (fun j => if j % 2 = 0 then TrafficLightPhase.green else TrafficLightPhase.red)⟩⟩ := by
  induction n with
  | zero => rfl
  | succ n ih =>
    rw [Function.iterate_succ_apply', ih, List.range_succ]
    rcases Nat.mod_two_eq_zero_or_one n with h | h
    · have h1 : (n + 1) % 2 = 1 := by omega
      simp [phaseTransition, newPhase, MessageQueue.send, h, h1]
    · have h1 : ¬ ((n + 1) % 2 = 1) := by omega
      simp [phaseTransition, newPhase, MessageQueue.send, h, h1]

/-! ## Lemmas for the first transition and for reachable lights -/

theorem idle_run (hz : Nat) (r0 : Nat) (t0 : Int) (pre : List Event)
    (hpre : ∀ a b c, Event.iteration a b c ∈ pre → timeSinceLastUpdate hz a t0 < distr r0) :
    pre.foldl (stepEvent hz) (cycleStart TrafficLight.new r0 t0) =
      cycleStart TrafficLight.new r0 t0 := by
  induction pre with
  | nil => rfl
  | cons e pre ih =>
    have hstep : stepEvent hz (cycleStart TrafficLight.new r0 t0) e =
        cycleStart TrafficLight.new r0 t0 := by
      cases e with
      | receive => rfl
      | iteration a b c =>
        have hlt := hpre a b c (by simp)
        have hn : ¬ (timeSinceLastUpdate hz a t0 ≥ distr r0) := not_le.mpr hlt
        simp only [stepEvent, loopIteration, cycleStart]
        exact if_neg hn
    rw [List.foldl_cons, hstep]
    exact ih (fun a b c hm => hpre a b c (List.mem_cons_of_mem _ hm))

/-- A call that returned took reds off the top of the store and then a green. -/
theorem waitForGreenLoop_returned (fuel : Nat) (p : TrafficLightPhase)
    (q : List TrafficLightPhase) (rec0 : List TrafficLightPhase) (l1 : TrafficLight)
    (rec1 : List TrafficLightPhase)
    (h : waitForGreenLoop fuel ⟨p, ⟨q⟩⟩ rec0 = WaitOutcome.returned l1 rec1) :
    ∃ older reds, q = older ++ TrafficLightPhase.green :: reds ∧
      (∀ x ∈ reds, x = TrafficLightPhase.red) ∧ l1 = ⟨p, ⟨older⟩⟩ ∧
      rec1 = rec0 ++ (reds.reverse ++ [TrafficLightPhase.green]) := by
  induction fuel generalizing q rec0 with
  | zero => simp [waitForGreenLoop] at h
  | succ f ih =>
    induction q using List.reverseRecOn with
    | nil => simp [waitForGreenLoop, receive_nil] at h
    | append_singleton q x _ =>
      simp only [waitForGreenLoop, receive_snoc] at h
      cases x with
      | green =>
        simp only [if_true, WaitOutcome.returned.injEq] at h
        obtain ⟨rfl, rfl⟩ := h
        exact ⟨q, [], rfl, by simp, rfl, by simp⟩
      | red =>
        simp only [reduceCtorEq, if_false] at h
        obtain ⟨older, reds, rfl, hr, hl, hrec⟩ := ih q _ h
        refine ⟨older, reds ++ [TrafficLightPhase.red], by simp, ?_, hl, ?_⟩
        · intro x hx
          rcases List.mem_append.mp hx with hx | hx
          · exact hr x hx
          · simpa using hx
        · simp [hrec]

theorem lightOk_new : LightOk TrafficLight.new := by
  constructor
  · intro older newer h
    simp [TrafficLight.new, MessageQueue.empty] at h
  · intro h
    simp [TrafficLight.new, MessageQueue.empty] at h

theorem lightOk_phaseTransition (l : TrafficLight) (h : LightOk l) :
    LightOk (phaseTransition l) := by
  obtain ⟨p, ⟨q⟩⟩ := l
  obtain ⟨ha, hb⟩ := h
  simp only at ha hb
  constructor
  · intro older newer hq
    simp only [phaseTransition, MessageQueue.send] at hq
    induction newer using List.reverseRecOn with
    | nil =>
      have hq1 : q ++ [newPhase ⟨p, ⟨q⟩⟩] = older ++ [TrafficLightPhase.green] := hq
      obtain ⟨hq2, hn⟩ := List.append_inj' hq1 rfl
      subst hq2
      intro hlast
      have hp := hb hlast
      simp only [List.cons.injEq, and_true] at hn
      simp [newPhase, hp] at hn
    | append_singleton newer x _ =>
      have hq1 : q ++ [newPhase ⟨p, ⟨q⟩⟩] =
          (older ++ TrafficLightPhase.green :: newer) ++ [x] := by
        rw [hq]
        simp
      obtain ⟨hq2, _⟩ := List.append_inj' hq1 rfl
      exact ha older newer hq2
  · intro _
    simp only [phaseTransition, MessageQueue.send, List.getLast?_concat,
      Option.some.injEq] at *
    assumption

theorem reachable_lightOk (l : TrafficLight) (h : ReachableByWholeCalls l) : LightOk l := by
  induction h with
  | constructed => exact lightOk_new
  | transition l _ ih => exact lightOk_phaseTransition l ih
  | waited l l1 fuel received _ hw ih =>
    obtain ⟨p, ⟨q⟩⟩ := l
    obtain ⟨older, reds, hq, _, rfl, _⟩ := waitForGreenLoop_returned fuel p q [] l1 received hw
    obtain ⟨ha, _⟩ := ih
    simp only at ha
    subst hq
    constructor
    · intro o n ho
      simp only at ho
      refine ha o (n ++ TrafficLightPhase.green :: reds) ?_
      rw [ho]
      simp
    · intro hlast
      exact absurd hlast (ha older reds rfl)

/-- A call of `waitForGreen` with phase transitions between its receives: after
two transitions the call receives red, two more transitions follow, the call
receives red and then green and returns.  The light is left with the phase red
and a green on top of the store; that state is not reached by whole calls, and
the next call returns on its first receive while the phase is red. -/
theorem interleaved_call_leaves_stale_green :
    (cycleThroughPhases 1 TrafficLight.new 0 0
      [Event.iteration 4 4 0, Event.iteration 8 8 0, Event.receive,
        Event.iteration 12 12 0, Event.iteration 16 16 0, Event.receive,
        Event.receive]).light =
      ⟨TrafficLightPhase.red, ⟨[TrafficLightPhase.green]⟩⟩ ∧
    ¬ ReachableByWholeCalls ⟨TrafficLightPhase.red, ⟨[TrafficLightPhase.green]⟩⟩ ∧
    TrafficLight.waitForGreen 1 ⟨TrafficLightPhase.red, ⟨[TrafficLightPhase.green]⟩⟩ =
      WaitOutcome.returned ⟨TrafficLightPhase.red, ⟨[]⟩⟩ [TrafficLightPhase.green] := by
  refine ⟨by decide, ?_, by decide⟩
  intro h
  have hp := (reachable_lightOk _ h).2 (by simp)
  simp at hp

/-! ## Claims -/

/-- C1: after `p1..pn` are sent to an initially empty queue, `n` calls of
`receive` with no send in between all complete, they empty the store, and the
`k`-th of them (`1 ≤ k ≤ n`) returns `p(n-k+1)`: last in, first out. -/
theorem C1_receive_lifo {T : Type} (ps : List T) (k : Nat) (h1 : 1 ≤ k)
    (hk : k ≤ ps.length) :
    ∃ out : List T,
      receiveN ps.length (sendAll MessageQueue.empty ps) = some (out, MessageQueue.empty) ∧
      out.length = ps.length ∧
      out.get? (k - 1) = ps.get? (ps.length - k) ∧
      (out.get? (k - 1)).isSome = true := by
  refine ⟨ps.reverse, ?_, by simp, ?_, ?_⟩
  · have h := receiveN_append_reverse ([] : List T) ps.reverse
    have hq : sendAll (MessageQueue.empty : MessageQueue T) ps = ⟨ps⟩ := by
      have := sendAll_queue (MessageQueue.empty : MessageQueue T) ps
      cases hs : sendAll (MessageQueue.empty : MessageQueue T) ps with
      | mk l =>
        rw [hs] at this
        simp [MessageQueue.empty] at this
        rw [this]
    rw [hq]
    simpa [MessageQueue.empty] using h
  · have hlt : k - 1 < ps.length := by omega
    simp only [List.get?_eq_getElem?]
    rw [List.getElem?_reverse hlt]
    congr 1
    omega
  · have hlt : k - 1 < ps.reverse.length := by simp; omega
    simp only [List.get?_eq_getElem?]
    rw [List.getElem?_eq_getElem hlt]
    rfl

/-- C1, scenario A: send(red), send(green); the first receive returns green and
the second returns red. -/
theorem C1_receive_lifo_witness :
    (1 ≤ 1 ∧ 1 ≤ [TrafficLightPhase.red, TrafficLightPhase.green].length) ∧
    (∃ out : List TrafficLightPhase,
      receiveN 2 (sendAll MessageQueue.empty [TrafficLightPhase.red, TrafficLightPhase.green])
        = some (out, MessageQueue.empty) ∧
      out.length = 2 ∧
      out.get? (1 - 1) = [TrafficLightPhase.red, TrafficLightPhase.green].get? (2 - 1) ∧
      (out.get? (1 - 1)).isSome = true) ∧
    receiveN 2 (sendAll MessageQueue.empty [TrafficLightPhase.red, TrafficLightPhase.green])
      = some ([TrafficLightPhase.green, TrafficLightPhase.red], MessageQueue.empty) :=
  ⟨by decide,
   C1_receive_lifo [TrafficLightPhase.red, TrafficLightPhase.green] 1 (by decide) (by decide),
   by decide⟩

/-- C3: on a message queue that holds a green entry, and with no send during
the call, `waitForGreen` returns; the store splits as `older`, the newest
green, and the entries `reds` sent after it, which are all red; the call has
received `reds` from the newest down and then that green, and nothing else, and
`older` is what stays in the store, in the same order.  The phase is not
touched. -/
theorem C3_waitForGreen_removes_down_to_newest_green (l : TrafficLight)
    (h : TrafficLightPhase.green ∈ l._messages._queue) :
    ∃ older reds : List TrafficLightPhase,
      l._messages._queue = older ++ TrafficLightPhase.green :: reds ∧
      (∀ x ∈ reds, x = TrafficLightPhase.red) ∧
      (∀ fuel, reds.length < fuel →
        l.waitForGreen fuel =
          WaitOutcome.returned ⟨l._currentPhase, ⟨older⟩⟩
            (reds.reverse ++ [TrafficLightPhase.green])) ∧
      l.waitForGreen l._messages._queue.length =
        WaitOutcome.returned ⟨l._currentPhase, ⟨older⟩⟩
          (reds.reverse ++ [TrafficLightPhase.green]) := by
  obtain ⟨p, ⟨q⟩⟩ := l
  obtain ⟨older, reds, hq, hr⟩ := split_at_newest_green q h
  subst hq
  refine ⟨older, reds, rfl, hr, ?_, ?_⟩
  · intro fuel hfuel
    have := waitForGreenLoop_reds_green p older reds hr fuel hfuel []
    simpa [TrafficLight.waitForGreen] using this
  · have := waitForGreenLoop_reds_green p older reds hr
      (older ++ TrafficLightPhase.green :: reds).length (by simp; omega) []
    simpa [TrafficLight.waitForGreen] using this

/-- C3 at the store red, green, red, red (oldest first) with the phase red: the
call receives red, red, green and leaves the oldest red. -/
theorem C3_waitForGreen_removes_down_to_newest_green_witness :
    TrafficLightPhase.green ∈
      [TrafficLightPhase.red, TrafficLightPhase.green, TrafficLightPhase.red,
        TrafficLightPhase.red] ∧
    (∃ older reds : List TrafficLightPhase,
      [TrafficLightPhase.red, TrafficLightPhase.green, TrafficLightPhase.red,
        TrafficLightPhase.red] = older ++ TrafficLightPhase.green :: reds ∧
      (∀ x ∈ reds, x = TrafficLightPhase.red) ∧
      (∀ fuel, reds.length < fuel →
        (TrafficLight.mk TrafficLightPhase.red ⟨[TrafficLightPhase.red,
            TrafficLightPhase.green, TrafficLightPhase.red,
            TrafficLightPhase.red]⟩).waitForGreen fuel =
          WaitOutcome.returned ⟨TrafficLightPhase.red, ⟨older⟩⟩
            (reds.reverse ++ [TrafficLightPhase.green])) ∧
      (TrafficLight.mk TrafficLightPhase.red ⟨[TrafficLightPhase.red,
          TrafficLightPhase.green, TrafficLightPhase.red,
          TrafficLightPhase.red]⟩).waitForGreen 4 =
        WaitOutcome.returned ⟨TrafficLightPhase.red, ⟨older⟩⟩
          (reds.reverse ++ [TrafficLightPhase.green])) ∧
    (TrafficLight.mk TrafficLightPhase.red ⟨[TrafficLightPhase.red,
        TrafficLightPhase.green, TrafficLightPhase.red,
        TrafficLightPhase.red]⟩).waitForGreen 4 =
      WaitOutcome.returned ⟨TrafficLightPhase.red, ⟨[TrafficLightPhase.red]⟩⟩
        [TrafficLightPhase.red, TrafficLightPhase.red, TrafficLightPhase.green] :=
  ⟨by decide,
   C3_waitForGreen_removes_down_to_newest_green
     (TrafficLight.mk TrafficLightPhase.red ⟨[TrafficLightPhase.red,
        TrafficLightPhase.green, TrafficLightPhase.red, TrafficLightPhase.red]⟩)
     (by decide),
   by decide⟩

/-- C7: on a light whose message queue holds no green entry, and with nothing
sent during the call, `waitForGreen` never returns: whatever the number of
loop iterations, the call has not reached `return`, and once it has taken the
entries off it sits in `receive` on the empty store.  The constructed light,
on which `simulate` was never called, has an empty queue and is such a light:
its first `receive` never completes. -/
theorem C7_waitForGreen_blocks_without_green (l : TrafficLight)
    (h : TrafficLightPhase.green ∉ l._messages._queue) (fuel : Nat) :
    (∀ l1 received, l.waitForGreen fuel ≠ WaitOutcome.returned l1 received) ∧
    (l._messages._queue.length < fuel →
      l.waitForGreen fuel =
        WaitOutcome.suspended ⟨l._currentPhase, ⟨[]⟩⟩ l._messages._queue.reverse) ∧
    (∀ l1 received, TrafficLight.new.waitForGreen fuel ≠ WaitOutcome.returned l1 received) ∧
    TrafficLight.new.waitForGreen (fuel + 1) = WaitOutcome.suspended TrafficLight.new [] ∧
    TrafficLight.new._messages.receive = none := by
  obtain ⟨p, ⟨q⟩⟩ := l
  have hl := waitForGreenLoop_no_green p q h fuel []
  have hn := waitForGreenLoop_no_green TrafficLightPhase.red [] (by simp) fuel []
  have hn1 := waitForGreenLoop_no_green TrafficLightPhase.red [] (by simp) (fuel + 1) []
  refine ⟨hl.1, ?_, hn.1, ?_, ?_⟩
  · intro hlen
    simpa [TrafficLight.waitForGreen] using hl.2 hlen
  · simpa [TrafficLight.waitForGreen, TrafficLight.new, MessageQueue.empty] using hn1.2
  · simp [TrafficLight.new, MessageQueue.empty, receive_nil]

/-- C7 at the constructed light, and ten loop iterations allowed. -/
theorem C7_waitForGreen_blocks_without_green_witness :
    TrafficLightPhase.green ∉ TrafficLight.new._messages._queue ∧
    (∀ l1 received, TrafficLight.new.waitForGreen 10 ≠ WaitOutcome.returned l1 received) ∧
    TrafficLight.new.waitForGreen 10 = WaitOutcome.suspended TrafficLight.new [] :=
  ⟨by decide,
   (C7_waitForGreen_blocks_without_green TrafficLight.new (by decide) 10).1,
   by decide⟩

/-- C4: in every interleaving of `send` and `receive` operations on a queue that
starts empty, the values returned by completed receives together with the
values still in the store are, as a multiset, the values sent; so nothing is
duplicated or dropped, and no sent value is returned more often than it was
sent.  The values sent are those of the `send` operations, in order. -/
theorem C4_queue_conserves_values {T : Type} (ops : List (QueueOp T)) :
    ((runOps ops).returnedValues + (runOps ops).queue._queue : Multiset T) =
      ((runOps ops).sentValues : Multiset T) ∧
    ((runOps ops).returnedValues : Multiset T) ≤ ((runOps ops).sentValues : Multiset T) ∧
    (runOps ops).sentValues =
      ops.filterMap (fun op => match op with
        | QueueOp.send msg => some msg
        | QueueOp.receive => none) ∧
    (runOps ops).returnedValues.length + (runOps ops).queue._queue.length =
      (runOps ops).sentValues.length := by
  induction ops using List.reverseRecOn with
  | nil => simp [runOps, MessageQueue.empty]
  | append_singleton ops op ih =>
    obtain ⟨hm, _, hs, hl⟩ := ih
    have hrun : runOps (ops ++ [op]) = (runOps ops).step op := by
      simp [runOps, List.foldl_append]
    rw [hrun]
    have key : (((runOps ops).step op).returnedValues +
          ((runOps ops).step op).queue._queue : Multiset T) =
        (((runOps ops).step op).sentValues : Multiset T) ∧
        ((runOps ops).step op).sentValues =
          (ops ++ [op]).filterMap (fun op => match op with
            | QueueOp.send msg => some msg
            | QueueOp.receive => none) ∧
        ((runOps ops).step op).returnedValues.length +
          ((runOps ops).step op).queue._queue.length =
          ((runOps ops).step op).sentValues.length := by
      cases op with
      | send msg =>
        refine ⟨?_, ?_, ?_⟩
        · simp only [QueueRun.step, MessageQueue.send, ← Multiset.coe_add]
          rw [← add_assoc, hm]
        · simp [QueueRun.step, hs, List.filterMap_append]
        · simp only [QueueRun.step, MessageQueue.send, List.length_append, List.length_singleton]
          omega
      | receive =>
        simp only [QueueRun.step]
        cases hr : (runOps ops).queue.receive with
        | none => exact ⟨hm, by simp [hs, List.filterMap_append], hl⟩
        | some v =>
          obtain ⟨msg, q1⟩ := v
          have hq := receive_eq_some _ _ _ hr
          rw [hq] at hm hl
          refine ⟨?_, by simp [hs, List.filterMap_append], ?_⟩
          · simp only
            rw [← hm, ← Multiset.coe_add, ← Multiset.coe_add]
            abel
          · simp only [List.length_append, List.length_singleton] at hl ⊢
            omega
    refine ⟨key.1, ?_, key.2.1, key.2.2⟩
    rw [← key.1]
    exact Multiset.le_add_right _ _

/-- C4 on the interleaving receive, send red, send green, receive: the first
receive does not complete, the second returns green, red stays in the store. -/
theorem C4_queue_conserves_values_witness :
    (runOps [QueueOp.receive, QueueOp.send TrafficLightPhase.red,
      QueueOp.send TrafficLightPhase.green, QueueOp.receive]).returnedValues =
      [TrafficLightPhase.green] ∧
    (runOps [QueueOp.receive, QueueOp.send TrafficLightPhase.red,
      QueueOp.send TrafficLightPhase.green, QueueOp.receive]).queue._queue =
      [TrafficLightPhase.red] ∧
    (runOps [QueueOp.receive, QueueOp.send TrafficLightPhase.red,
      QueueOp.send TrafficLightPhase.green, QueueOp.receive]).sentValues =
      [TrafficLightPhase.red, TrafficLightPhase.green] :=
  ⟨by decide, by decide,
   (C4_queue_conserves_values [QueueOp.receive, QueueOp.send TrafficLightPhase.red,
      QueueOp.send TrafficLightPhase.green, QueueOp.receive]).2.2.1⟩

/-- C8: at every point of every run of `cycleThroughPhases`, whatever the random
engine supplies, the clock shows, and other threads receive, the cycle
duration in use (the one drawn before the loop or the one drawn after the
latest phase transition) is an integer from 4 to 6. -/
theorem C8_cycleDuration_bounds (hz : Nat) (l : TrafficLight) (r0 : Nat) (t0 : Int)
    (es : List Event) :
    4 ≤ (cycleThroughPhases hz l r0 t0 es).cycleDuration ∧
    (cycleThroughPhases hz l r0 t0 es).cycleDuration ≤ 6 := by
  unfold cycleThroughPhases
  refine foldl_invariant (fun s => 4 ≤ s.cycleDuration ∧ s.cycleDuration ≤ 6) (stepEvent hz)
    ?_ es (cycleStart l r0 t0) (distr_bounds r0)
  intro s e hs
  cases e with
  | receive =>
    simp only [stepEvent]
    cases s.light._messages.receive <;> exact hs
  | iteration now1 now2 r =>
    simp only [stepEvent, loopIteration]
    split
    · exact distr_bounds r
    · exact hs

/-- C2: in every run of `cycleThroughPhases` on one light, from any phase and
any queue content, the values written to `_currentPhase` alternate: the
`(i+1)`-th value written differs from the `i`-th.  The values sent to the
message queue are the same sequence, so they alternate as well, and the newest
value written is the phase of the light. -/
theorem C2_written_phases_alternate (hz : Nat) (l : TrafficLight) (r0 : Nat) (t0 : Int)
    (es : List Event) :
    (∀ i x y, (cycleThroughPhases hz l r0 t0 es).written.get? i = some x →
      (cycleThroughPhases hz l r0 t0 es).written.get? (i + 1) = some y → x ≠ y) ∧
    (∀ i x y, (cycleThroughPhases hz l r0 t0 es).sent.get? i = some x →
      (cycleThroughPhases hz l r0 t0 es).sent.get? (i + 1) = some y → x ≠ y) ∧
    (cycleThroughPhases hz l r0 t0 es).sent = (cycleThroughPhases hz l r0 t0 es).written ∧
    (∀ x, (cycleThroughPhases hz l r0 t0 es).written.getLast? = some x →
      (cycleThroughPhases hz l r0 t0 es).light.getCurrentPhase = x) := by
  have h : HistoryOk (cycleThroughPhases hz l r0 t0 es) := by
    unfold cycleThroughPhases
    refine foldl_invariant HistoryOk (stepEvent hz) (historyOk_step hz) es _ ?_
    exact ⟨rfl, by simp [cycleStart], by simp [cycleStart]⟩
  obtain ⟨hsent, hchain, hlast⟩ := h
  refine ⟨chain_ne_index _ hchain, ?_, hsent, fun x hx => (hlast x hx).symm⟩
  rw [hsent]
  exact chain_ne_index _ hchain

/-- C2 on a run from a red light with 1000 ticks a second and a first duration
of 4: iterations at 4000, 4500 and 9000 ticks write green, nothing, red. -/
theorem C2_written_phases_alternate_witness :
    (cycleThroughPhases 1000 TrafficLight.new 0 0
      [Event.iteration 4000 4000 0, Event.iteration 4500 4500 0, Event.receive,
        Event.iteration 9000 9000 1]).written =
      [TrafficLightPhase.green, TrafficLightPhase.red] ∧
    (cycleThroughPhases 1000 TrafficLight.new 0 0
      [Event.iteration 4000 4000 0, Event.iteration 4500 4500 0, Event.receive,
        Event.iteration 9000 9000 1]).sent =
      (cycleThroughPhases 1000 TrafficLight.new 0 0
        [Event.iteration 4000 4000 0, Event.iteration 4500 4500 0, Event.receive,
          Event.iteration 9000 9000 1]).written :=
  ⟨by decide,
   (C2_written_phases_alternate 1000 TrafficLight.new 0 0
      [Event.iteration 4000 4000 0, Event.iteration 4500 4500 0, Event.receive,
        Event.iteration 9000 9000 1]).2.2.1⟩

/-- C8 on a run with two phase transitions: the durations drawn are 6 and 5. -/
theorem C8_cycleDuration_bounds_witness :
    (cycleThroughPhases 1000 TrafficLight.new 0 0 [Event.iteration 4000 4000 2]).cycleDuration
      = 6 ∧
    (cycleThroughPhases 1000 TrafficLight.new 0 0
      [Event.iteration 4000 4000 2, Event.iteration 10000 10000 7]).cycleDuration ≤ 6 :=
  ⟨by decide,
   (C8_cycleDuration_bounds 1000 TrafficLight.new 0 0
      [Event.iteration 4000 4000 2, Event.iteration 10000 10000 7]).2⟩

/-- C9: one loop iteration of `cycleThroughPhases`.  When the elapsed whole
seconds reach the cycle duration, `_currentPhase` becomes the opposite of what
it was, that same value becomes the newest entry of the message queue above
the unchanged older entries, and it is the one value written and sent.
Otherwise the iteration leaves the phase, the message queue and the cycle
duration (and all else) as they were. -/
theorem C9_loopIteration (hz : Nat) (s : CycleState) (now1 now2 : Int) (r : Nat) :
    (timeSinceLastUpdate hz now1 s.lastUpdate ≥ s.cycleDuration →
      (loopIteration hz s now1 now2 r).light._currentPhase ≠ s.light._currentPhase ∧
      (s.light._currentPhase = TrafficLightPhase.red →
        (loopIteration hz s now1 now2 r).light._currentPhase = TrafficLightPhase.green) ∧
      (s.light._currentPhase = TrafficLightPhase.green →
        (loopIteration hz s now1 now2 r).light._currentPhase = TrafficLightPhase.red) ∧
      (loopIteration hz s now1 now2 r).light._messages._queue =
        s.light._messages._queue ++ [(loopIteration hz s now1 now2 r).light._currentPhase] ∧
      (loopIteration hz s now1 now2 r).written =
        s.written ++ [(loopIteration hz s now1 now2 r).light._currentPhase] ∧
      (loopIteration hz s now1 now2 r).sent =
        s.sent ++ [(loopIteration hz s now1 now2 r).light._currentPhase]) ∧
    (timeSinceLastUpdate hz now1 s.lastUpdate < s.cycleDuration →
      (loopIteration hz s now1 now2 r).light._currentPhase = s.light._currentPhase ∧
      (loopIteration hz s now1 now2 r).light._messages = s.light._messages ∧
      (loopIteration hz s now1 now2 r).cycleDuration = s.cycleDuration ∧
      loopIteration hz s now1 now2 r = s) := by
  constructor
  · intro h
    have e : loopIteration hz s now1 now2 r =
        ⟨phaseTransition s.light, distr r, now2,
          s.written ++ [newPhase s.light], s.sent ++ [newPhase s.light]⟩ := by
      simp only [loopIteration, if_pos h]
    rw [e]
    refine ⟨newPhase_ne s.light, ?_, ?_, rfl, rfl, rfl⟩
    · intro hp
      simp [phaseTransition, newPhase, hp]
    · intro hp
      simp [phaseTransition, newPhase, hp]
  · intro h
    have h1 : ¬ (timeSinceLastUpdate hz now1 s.lastUpdate ≥ s.cycleDuration) := not_le.mpr h
    simp [loopIteration, if_neg h1]

/-- C9 at a red light with an older green entry, cycle duration 5, stop watch at
0 and 1000 ticks a second: at 5000 ticks the phase turns green and green is
sent; at 4999 ticks nothing changes. -/
theorem C9_loopIteration_witness :
    (loopIteration 1000 ⟨⟨TrafficLightPhase.red, ⟨[TrafficLightPhase.green]⟩⟩, 5, 0, [], []⟩
        5000 5001 2).light =
      ⟨TrafficLightPhase.green, ⟨[TrafficLightPhase.green, TrafficLightPhase.green]⟩⟩ ∧
    (loopIteration 1000 ⟨⟨TrafficLightPhase.red, ⟨[TrafficLightPhase.green]⟩⟩, 5, 0, [], []⟩
        5000 5001 2).light._currentPhase ≠ TrafficLightPhase.red ∧
    loopIteration 1000 ⟨⟨TrafficLightPhase.red, ⟨[TrafficLightPhase.green]⟩⟩, 5, 0, [], []⟩
        4999 5001 2 =
      ⟨⟨TrafficLightPhase.red, ⟨[TrafficLightPhase.green]⟩⟩, 5, 0, [], []⟩ :=
  ⟨by decide,
   ((C9_loopIteration 1000
      ⟨⟨TrafficLightPhase.red, ⟨[TrafficLightPhase.green]⟩⟩, 5, 0, [], []⟩ 5000 5001 2).1
      (by decide)).1,
   ((C9_loopIteration 1000
      ⟨⟨TrafficLightPhase.red, ⟨[TrafficLightPhase.green]⟩⟩, 5, 0, [], []⟩ 4999 5001 2).2
      (by decide)).2.2.2⟩

/-- C10: after `n` scheduler phase transitions on a newly constructed light and
no receive, the message queue holds `n` entries, the `i`-th oldest (from 1) is
green for odd `i` and red for even `i`, `getCurrentPhase` returns green for odd
`n` and red for even `n`, and for `n ≥ 1` the next `receive` returns the
current phase. -/
theorem C10_state_after_n_transitions (n : Nat) :
    (phaseTransition^[n] TrafficLight.new)._messages._queue.length = n ∧
    (∀ i, 1 ≤ i → i ≤ n →
      (phaseTransition^[n] TrafficLight.new)._messages._queue.get? (i - 1) =
        some (if i % 2 = 1 then TrafficLightPhase.green else TrafficLightPhase.red)) ∧
    (phaseTransition^[n] TrafficLight.new).getCurrentPhase =
      (if n % 2 = 1 then TrafficLightPhase.green else TrafficLightPhase.red) ∧
    (1 ≤ n → ∃ q, (phaseTransition^[n] TrafficLight.new)._messages.receive =
      some ((phaseTransition^[n] TrafficLight.new).getCurrentPhase, q)) := by
  rw [iterate_phaseTransition]
  refine ⟨by simp, ?_, rfl, ?_⟩
  · intro i h1 hn
    have hlt : i - 1 < n := by omega
    simp only [List.get?_eq_getElem?, List.getElem?_map, List.getElem?_range hlt,
      Option.map_some']
    congr 1
    rcases Nat.mod_two_eq_zero_or_one i with h | h
    · have : (i - 1) % 2 = 1 := by omega
      simp [h, this]
    · have : (i - 1) % 2 = 0 := by omega
      simp [h, this]
  · intro h1
    obtain ⟨m, rfl⟩ : ∃ m, n = m + 1 := ⟨n - 1, by omega⟩
    simp only [List.range_succ, List.map_append, List.map_cons, List.map_nil, receive_snoc,
      TrafficLight.getCurrentPhase]
    have hp : (if m % 2 = 0 then TrafficLightPhase.green else TrafficLightPhase.red) =
        (if (m + 1) % 2 = 1 then TrafficLightPhase.green else TrafficLightPhase.red) := by
      rcases Nat.mod_two_eq_zero_or_one m with h | h
      · have : (m + 1) % 2 = 1 := by omega
        simp [h, this]
      · have : ¬ ((m + 1) % 2 = 1) := by omega
        simp [h, this]
    rw [← hp]
    exact ⟨_, rfl⟩

/-- C10 after three transitions: the store is green, red, green, the phase is
green, and the next `receive` returns green. -/
theorem C10_state_after_n_transitions_witness :
    (phaseTransition^[3] TrafficLight.new) =
      ⟨TrafficLightPhase.green,
       ⟨[TrafficLightPhase.green, TrafficLightPhase.red, TrafficLightPhase.green]⟩⟩ ∧
    (∃ q, (phaseTransition^[3] TrafficLight.new)._messages.receive =
      some ((phaseTransition^[3] TrafficLight.new).getCurrentPhase, q)) :=
  ⟨by decide, (C10_state_after_n_transitions 3).2.2.2 (by decide)⟩

/-- C5: a newly constructed light on which `simulate` starts one run of
`cycleThroughPhases`.  The drawn cycle duration is at most 6.  As long as every
iteration finds fewer elapsed whole seconds than the duration, nothing is
written or sent, and a call of `waitForGreen` sits in its first `receive`
having received nothing.  The first iteration that finds the elapsed seconds
at the duration or above makes the phase green and sends green, and the
waiting call, resumed on that store, returns having received exactly that one
message. -/
theorem C5_first_transition_sends_green (hz : Nat) (r0 : Nat) (t0 : Int) (pre : List Event)
    (now1 now2 : Int) (r : Nat)
    (hpre : ∀ a b c, Event.iteration a b c ∈ pre → timeSinceLastUpdate hz a t0 < distr r0)
    (hdue : timeSinceLastUpdate hz now1 t0 ≥ distr r0) :
    distr r0 ≤ 6 ∧
    TrafficLight.new.simulate hz r0 t0 pre = cycleStart TrafficLight.new r0 t0 ∧
    (∀ fuel, (TrafficLight.new.simulate hz r0 t0 pre).light.waitForGreen (fuel + 1) =
      WaitOutcome.suspended TrafficLight.new []) ∧
    (TrafficLight.new.simulate hz r0 t0 (pre ++ [Event.iteration now1 now2 r])).light =
      ⟨TrafficLightPhase.green, ⟨[TrafficLightPhase.green]⟩⟩ ∧
    (TrafficLight.new.simulate hz r0 t0 (pre ++ [Event.iteration now1 now2 r])).sent =
      [TrafficLightPhase.green] ∧
    (TrafficLight.new.simulate hz r0 t0
      (pre ++ [Event.iteration now1 now2 r])).written = [TrafficLightPhase.green] ∧
    (∀ fuel, waitForGreenLoop (fuel + 1)
        (TrafficLight.new.simulate hz r0 t0
          (pre ++ [Event.iteration now1 now2 r])).light [] =
      WaitOutcome.returned ⟨TrafficLightPhase.green, ⟨[]⟩⟩ [TrafficLightPhase.green]) := by
  have hidle := idle_run hz r0 t0 pre hpre
  have hafter : TrafficLight.new.simulate hz r0 t0
      (pre ++ [Event.iteration now1 now2 r]) =
      ⟨⟨TrafficLightPhase.green, ⟨[TrafficLightPhase.green]⟩⟩, distr r, now2,
        [TrafficLightPhase.green], [TrafficLightPhase.green]⟩ := by
    unfold TrafficLight.simulate cycleThroughPhases
    rw [List.foldl_append, hidle]
    show loopIteration hz (cycleStart TrafficLight.new r0 t0) now1 now2 r = _
    unfold loopIteration
    rw [if_pos (show timeSinceLastUpdate hz now1 (cycleStart TrafficLight.new r0 t0).lastUpdate ≥
      (cycleStart TrafficLight.new r0 t0).cycleDuration from hdue)]
    rfl
  refine ⟨(distr_bounds r0).2, hidle, ?_, ?_, ?_, ?_, ?_⟩
  · intro fuel
    simp only [TrafficLight.simulate, cycleThroughPhases, hidle]
    rfl
  · rw [hafter]
  · rw [hafter]
  · rw [hafter]
  · intro fuel
    rw [hafter]
    rfl

/-- C5 with 1000 ticks a second, a drawn duration of 5 and the stop watch set at
0: iterations at 1000 and 4999 ticks (and a receive attempt in between) change
nothing, the iteration at 5000 ticks sends green. -/
theorem C5_first_transition_sends_green_witness :
    (TrafficLight.new.simulate 1000 1 0
      ([Event.iteration 1000 1000 0, Event.receive, Event.iteration 4999 4999 0] ++
        [Event.iteration 5000 5000 2])).light =
      ⟨TrafficLightPhase.green, ⟨[TrafficLightPhase.green]⟩⟩ ∧
    TrafficLight.new.simulate 1000 1 0
      [Event.iteration 1000 1000 0, Event.receive, Event.iteration 4999 4999 0] =
      cycleStart TrafficLight.new 1 0 ∧
    waitForGreenLoop 1 ⟨TrafficLightPhase.green, ⟨[TrafficLightPhase.green]⟩⟩ [] =
      WaitOutcome.returned ⟨TrafficLightPhase.green, ⟨[]⟩⟩ [TrafficLightPhase.green] :=
  ⟨(C5_first_transition_sends_green 1000 1 0
      [Event.iteration 1000 1000 0, Event.receive, Event.iteration 4999 4999 0] 5000 5000 2
      (by
        intro a b c hm
        simp only [List.mem_cons, Event.iteration.injEq, reduceCtorEq, List.mem_singleton,
          List.mem_nil_iff, or_false, false_or] at hm
        rcases hm with ⟨rfl, _, _⟩ | ⟨rfl, _, _⟩ <;> decide)
      (by decide)).2.2.2.1,
   by decide, by decide⟩

/-- C6 as stated fails: after two phase transitions and no call at all the
store is green, red and the phase is red; `waitForGreen` takes the red, then
the green, and returns while `getCurrentPhase` returns red. -/
theorem C6_counterexample :
    ReachableByWholeCalls (phaseTransition (phaseTransition TrafficLight.new)) ∧
    (phaseTransition (phaseTransition TrafficLight.new)).waitForGreen 2 =
      WaitOutcome.returned ⟨TrafficLightPhase.red, ⟨[]⟩⟩
        [TrafficLightPhase.red, TrafficLightPhase.green] ∧
    TrafficLight.getCurrentPhase ⟨TrafficLightPhase.red, ⟨[]⟩⟩ = TrafficLightPhase.red ∧
    ¬ (∀ (l l1 : TrafficLight) (fuel : Nat) (received : List TrafficLightPhase),
        ReachableByWholeCalls l → l.waitForGreen fuel = WaitOutcome.returned l1 received →
        l1.getCurrentPhase = TrafficLightPhase.green) := by
  have hr : ReachableByWholeCalls (phaseTransition (phaseTransition TrafficLight.new)) :=
    ReachableByWholeCalls.transition _
      (ReachableByWholeCalls.transition _ ReachableByWholeCalls.constructed)
  have hw : (phaseTransition (phaseTransition TrafficLight.new)).waitForGreen 2 =
      WaitOutcome.returned ⟨TrafficLightPhase.red, ⟨[]⟩⟩
        [TrafficLightPhase.red, TrafficLightPhase.green] := by decide
  refine ⟨hr, hw, rfl, ?_⟩
  intro hall
  have := hall _ _ 2 _ hr hw
  simp [TrafficLight.getCurrentPhase] at this

/-- C6 amended: `waitForGreen` blocks until it receives a green message.  On
every light state whatsoever, so however earlier calls and phase transitions
were interleaved, a call that returns with no transition during it has
received green as its last message and only reds before, and has left the
phase as it was when the call began.  When moreover the state was reached from
the constructed light by phase transitions and by earlier calls that each ran
to their return with no transition during them, and the call returned on its
first `receive`, `getCurrentPhase` returns green at that moment. -/
theorem C6_waitForGreen_returns_on_green_message (l l1 : TrafficLight) (fuel : Nat)
    (received : List TrafficLightPhase)
    (hw : l.waitForGreen fuel = WaitOutcome.returned l1 received) :
    received.getLast? = some TrafficLightPhase.green ∧
    (∀ x ∈ received.dropLast, x = TrafficLightPhase.red) ∧
    l1.getCurrentPhase = l.getCurrentPhase ∧
    (ReachableByWholeCalls l → received.length = 1 →
      l1.getCurrentPhase = TrafficLightPhase.green) := by
  obtain ⟨p, ⟨q⟩⟩ := l
  obtain ⟨older, reds, hq, hreds, rfl, hrec⟩ :=
    waitForGreenLoop_returned fuel p q [] l1 received hw
  simp only [List.nil_append] at hrec
  subst hrec
  refine ⟨by simp, ?_, rfl, ?_⟩
  · intro x hx
    rw [List.dropLast_concat] at hx
    exact hreds x (List.mem_reverse.mp hx)
  · intro hl hlen
    have hok := reachable_lightOk _ hl
    have hnil : reds = [] := by
      simp only [List.length_append, List.length_reverse, List.length_singleton] at hlen
      exact List.length_eq_zero.mp (by omega)
    subst hnil
    subst hq
    exact hok.2 (by simp)

/-- C6 amended, after three phase transitions and one whole call: the store is
green, red, the phase is green; the next call discards the red, returns on the
green below it and leaves the phase green.  After one transition only, the
call returns on its first receive and the phase is green. -/
theorem C6_waitForGreen_returns_on_green_message_witness :
    (TrafficLight.mk TrafficLightPhase.green
        ⟨[TrafficLightPhase.green, TrafficLightPhase.red]⟩).waitForGreen 2 =
      WaitOutcome.returned ⟨TrafficLightPhase.green, ⟨[]⟩⟩
        [TrafficLightPhase.red, TrafficLightPhase.green] ∧
    [TrafficLightPhase.red, TrafficLightPhase.green].getLast? =
      some TrafficLightPhase.green ∧
    ReachableByWholeCalls (phaseTransition TrafficLight.new) ∧
    (phaseTransition TrafficLight.new).waitForGreen 1 =
      WaitOutcome.returned ⟨TrafficLightPhase.green, ⟨[]⟩⟩ [TrafficLightPhase.green] ∧
    TrafficLight.getCurrentPhase ⟨TrafficLightPhase.green, ⟨[]⟩⟩ = TrafficLightPhase.green :=
  ⟨by decide,
   (C6_waitForGreen_returns_on_green_message
      (TrafficLight.mk TrafficLightPhase.green
        ⟨[TrafficLightPhase.green, TrafficLightPhase.red]⟩)
      ⟨TrafficLightPhase.green, ⟨[]⟩⟩ 2 [TrafficLightPhase.red, TrafficLightPhase.green]
      (by decide)).1,
   ReachableByWholeCalls.transition _ ReachableByWholeCalls.constructed,
   by decide,
   (C6_waitForGreen_returns_on_green_message (phaseTransition TrafficLight.new)
      ⟨TrafficLightPhase.green, ⟨[]⟩⟩ 1 [TrafficLightPhase.green] (by decide)).2.2.2
      (ReachableByWholeCalls.transition _ ReachableByWholeCalls.constructed) (by decide)⟩

end TrafficSim
